import Mathlib

/-!
# Verification of the `cube.py` ray tracer

Shallow embedding of the minimal CPU ray tracer in `src/cube.py`:
camera ray generation, plane and box intersection, nearest-hit resolution
over a scene, Lambertian shading and the per-pixel render loop.

The geometric core (`Plane.intersect`, `Cube.intersect`, `resolveScene`)
is embedded polymorphically over a linear ordered field, mirroring the
source line by line; machine floats are modelled by exact field
arithmetic.  The layers that use `sqrt`/`tan` (vector normalization,
camera rays, shading, the render loop) are instantiated at `ℝ`.

Conventions for partiality in the source:
* a Python `return None, None, None` becomes an `Option` result;
* the float `inf` initial value of a running minimum becomes an
  `Option` accumulator whose `none` case compares as `+∞`.
-/

/-- A 3-component vector, the embedding of the `np.array([x, y, z])`
values of the source. -/
@[ext]
structure Vec3 (α : Type) where
  x : α
  y : α
  z : α
deriving DecidableEq

namespace Vec3

variable {α : Type} [LinearOrderedField α]

/-- Componentwise vector addition. -/
def add (a b : Vec3 α) : Vec3 α := ⟨a.x + b.x, a.y + b.y, a.z + b.z⟩

/-- Componentwise vector subtraction. -/
def sub (a b : Vec3 α) : Vec3 α := ⟨a.x - b.x, a.y - b.y, a.z - b.z⟩

/-- Scalar multiple of a vector. -/
def smul (t : α) (v : Vec3 α) : Vec3 α := ⟨t * v.x, t * v.y, t * v.z⟩

/-- Componentwise division of a vector by a scalar (`v / s` in numpy). -/
def divScalar (v : Vec3 α) (t : α) : Vec3 α := ⟨v.x / t, v.y / t, v.z / t⟩

/-- The dot product `np.dot`. -/
def dot (a b : Vec3 α) : α := a.x * b.x + a.y * b.y + a.z * b.z

end Vec3

instance {α : Type} [LinearOrderedField α] : Add (Vec3 α) := ⟨Vec3.add⟩

instance {α : Type} [LinearOrderedField α] : Sub (Vec3 α) := ⟨Vec3.sub⟩

instance {α : Type} [LinearOrderedField α] : SMul α (Vec3 α) := ⟨Vec3.smul⟩

/-- The `Plane` class of the source: a point on the plane, the plane's
normal and a color. -/
structure Plane (α : Type) where
  point : Vec3 α
  normal : Vec3 α
  color : Vec3 α
deriving DecidableEq

/-- `Plane.intersect` from the source: `denom = np.dot(ray_direction,
normal)`; if `|denom| < 1e-6` return `None`; else
`t = np.dot(point - ray_origin, normal) / denom`; if `t < 0` return
`None`; else return `t`, the normal and the hit point
`ray_origin + ray_direction * t`. -/
def Plane.intersect {α : Type} [LinearOrderedField α] (pl : Plane α)
    (ray_origin ray_direction : Vec3 α) : Option (α × Vec3 α × Vec3 α) :=
  if |Vec3.dot ray_direction pl.normal| < 1 / 1000000 then none
  else
    if Vec3.dot (pl.point - ray_origin) pl.normal / Vec3.dot ray_direction pl.normal < 0 then none
    else
      some (Vec3.dot (pl.point - ray_origin) pl.normal / Vec3.dot ray_direction pl.normal,
        pl.normal,
        ray_origin +
          (Vec3.dot (pl.point - ray_origin) pl.normal / Vec3.dot ray_direction pl.normal) •
            ray_direction)

/-- The `Cube` class of the source: a center, a side length and a color.
Its six face planes are derived by `Cube.planes`, exactly as built in
`Cube.__init__`. -/
structure Cube (α : Type) where
  center : Vec3 α
  side : α
  color : Vec3 α
deriving DecidableEq

/-- The six face planes built in `Cube.__init__`: each face point is
`center + half * axis` with `half = side / 2`, carrying the outward
axis normal and the cube's color. -/
def Cube.planes {α : Type} [LinearOrderedField α] (c : Cube α) : List (Plane α) :=
  [ ⟨c.center + (c.side / 2) • (⟨1, 0, 0⟩ : Vec3 α), ⟨1, 0, 0⟩, c.color⟩,
    ⟨c.center + (c.side / 2) • (⟨-1, 0, 0⟩ : Vec3 α), ⟨-1, 0, 0⟩, c.color⟩,
    ⟨c.center + (c.side / 2) • (⟨0, 1, 0⟩ : Vec3 α), ⟨0, 1, 0⟩, c.color⟩,
    ⟨c.center + (c.side / 2) • (⟨0, -1, 0⟩ : Vec3 α), ⟨0, -1, 0⟩, c.color⟩,
    ⟨c.center + (c.side / 2) • (⟨0, 0, 1⟩ : Vec3 α), ⟨0, 0, 1⟩, c.color⟩,
    ⟨c.center + (c.side / 2) • (⟨0, 0, -1⟩ : Vec3 α), ⟨0, 0, -1⟩, c.color⟩ ]

/-- The face-bound test of `Cube.intersect`:
`all(abs(p - (center + n * side / 2)) <= side / 2)`, componentwise over
the three axes. -/
def Cube.inBounds {α : Type} [LinearOrderedField α] (c : Cube α) (n p : Vec3 α) : Prop :=
  |p.x - (c.center + (c.side / 2) • n).x| ≤ c.side / 2 ∧
  |p.y - (c.center + (c.side / 2) • n).y| ≤ c.side / 2 ∧
  |p.z - (c.center + (c.side / 2) • n).z| ≤ c.side / 2

instance {α : Type} [LinearOrderedField α] (c : Cube α) (n p : Vec3 α) :
    Decidable (c.inBounds n p) := by
  unfold Cube.inBounds
  infer_instance

/-- One iteration of the plane loop in `Cube.intersect`: if the plane
reports a hit and the hit point passes the face-bound test and the
distance beats the running minimum (`none` plays the role of the
initial `inf`), the accumulator is replaced by this face's distance and
normal. -/
def cubeStep {α : Type} [LinearOrderedField α] (c : Cube α) (ray_origin ray_direction : Vec3 α)
    (acc : Option α × Option (Vec3 α)) (pl : Plane α) : Option α × Option (Vec3 α) :=
  match pl.intersect ray_origin ray_direction with
  | none => acc
  | some (dist, n, p) =>
      if c.inBounds n p then
        match acc.1 with
        | none => (some dist, some n)
        | some m => if dist < m then (some dist, some n) else acc
      else acc

/-- The plane loop of `Cube.intersect`, generalized over the list of
planes it folds over. -/
def Cube.intersectAux {α : Type} [LinearOrderedField α] (c : Cube α)
    (ray_origin ray_direction : Vec3 α) (ps : List (Plane α)) :
    Option α × Option (Vec3 α) :=
  ps.foldl (cubeStep c ray_origin ray_direction) (none, none)

/-- `Cube.intersect` from the source: fold the plane loop over the six
face planes; return the minimal accepted distance and its normal, or
`(None, None)` when no face accepted a hit. -/
def Cube.intersect {α : Type} [LinearOrderedField α] (c : Cube α)
    (ray_origin ray_direction : Vec3 α) : Option α × Option (Vec3 α) :=
  c.intersectAux ray_origin ray_direction c.planes

/-- The `Light` class of the source: a position and a scalar intensity. -/
structure Light (α : Type) where
  position : Vec3 α
  intensity : α
deriving DecidableEq

/-- One iteration of the scene loop in `render`: if the object's
`intersect` reports a distance and it beats the running minimum, record
the object, the distance and the returned normal. -/
def resolveStep {α : Type} [LinearOrderedField α] (ray_origin ray_direction : Vec3 α)
    (acc : Option (Cube α) × Option α × Option (Vec3 α)) (obj : Cube α) :
    Option (Cube α) × Option α × Option (Vec3 α) :=
  match obj.intersect ray_origin ray_direction with
  | (some dist, n) =>
      match acc.2.1 with
      | none => (some obj, some dist, n)
      | some m => if dist < m then (some obj, some dist, n) else acc
  | (none, _) => acc

/-- The nearest-hit resolution loop of `render`: iterate the scene in
order, tracking the closest object, its distance and its normal. -/
def resolveScene {α : Type} [LinearOrderedField α] (scene : List (Cube α))
    (ray_origin ray_direction : Vec3 α) :
    Option (Cube α) × Option α × Option (Vec3 α) :=
  scene.foldl (resolveStep ray_origin ray_direction) (none, none, none)

/-- Euclidean norm `np.linalg.norm` of a 3-vector. -/
noncomputable def norm3 (v : Vec3 ℝ) : ℝ := Real.sqrt (Vec3.dot v v)

/-- Normalization `v /= np.linalg.norm(v)` of a 3-vector. -/
noncomputable def normalize3 (v : Vec3 ℝ) : Vec3 ℝ := v.divScalar (norm3 v)

/-- The divisor used (with no zero guard) when `compute_lighting`
normalizes the direction from the hit point to the light. -/
noncomputable def lightDirDenom (scene_light : Light ℝ) (point : Vec3 ℝ) : ℝ :=
  norm3 (scene_light.position - point)

/-- `compute_lighting` from the source:
`light_dir = (light.position - point) / ||light.position - point||`,
then `max(np.dot(light_dir, normal), 0) * light.intensity`. -/
noncomputable def compute_lighting (point normal : Vec3 ℝ) (scene_light : Light ℝ) : ℝ :=
  let light_dir := (scene_light.position - point).divScalar (lightDirDenom scene_light point)
  max (Vec3.dot light_dir normal) 0 * scene_light.intensity

/-- `ray_from_camera` from the source: the pinhole camera maps pixel
`(x, y)` to the ray from `camera_position` along the normalized
direction `(pixel_x, pixel_y, -1)`. -/
noncomputable def ray_from_camera (camera_position : Vec3 ℝ) (x y : ℕ)
    (image_width image_height : ℕ) (fov : ℝ) : Vec3 ℝ × Vec3 ℝ :=
  let aspect : ℝ := (image_width : ℝ) / (image_height : ℝ)
  let scale : ℝ := Real.tan (fov * 0.5 * Real.pi / 180)
  let pixel_x : ℝ := (2 * ((x : ℝ) + 0.5) / (image_width : ℝ) - 1) * aspect * scale
  let pixel_y : ℝ := (1 - 2 * ((y : ℝ) + 0.5) / (image_height : ℝ)) * scale
  (camera_position, normalize3 ⟨pixel_x, pixel_y, -1⟩)

/-- The fixed ambient intensity `ambient_light = 0.1` of `render`. -/
noncomputable def ambient_light : ℝ := 0.1

/-- The image buffer: a pixel grid addressed as `image y x`, the
embedding of the `np.zeros((height, width, 3))` array of `render`. -/
abbrev Image : Type := ℕ → ℕ → Vec3 ℝ

/-- Writing one pixel of the image buffer (`image[y, x] = c`). -/
def setPixel (image : Image) (y x : ℕ) (c : Vec3 ℝ) : Image :=
  fun y' x' => if y' = y ∧ x' = x then c else image y' x'

/-- `np.clip(color, 0, 1)`: clamp each channel to `[0, 1]`. -/
def clip01 (v : Vec3 ℝ) : Vec3 ℝ :=
  ⟨min (max v.x 0) 1, min (max v.y 0) 1, min (max v.z 0) 1⟩

/-- The body of the pixel loop of `render`: generate the camera ray,
resolve the nearest hit, and if an object was hit, shade it and write
the clamped color at `(y, x)`; otherwise leave the image unchanged. -/
noncomputable def renderStep (scene : List (Cube ℝ)) (scene_light : Light ℝ)
    (camera_position : Vec3 ℝ) (image_width image_height : ℕ) (fov : ℝ)
    (image : Image) (y x : ℕ) : Image :=
  match resolveScene scene
      (ray_from_camera camera_position x y image_width image_height fov).1
      (ray_from_camera camera_position x y image_width image_height fov).2 with
  | (some closest_obj, some min_dist, some hit_normal) =>
      setPixel image y x (clip01
        ((compute_lighting
            ((ray_from_camera camera_position x y image_width image_height fov).1
              + min_dist • (ray_from_camera camera_position x y image_width image_height fov).2)
            hit_normal scene_light + ambient_light) • closest_obj.color))
  | _ => image

/-- The value `render` leaves at pixel `(x, y)` when that pixel's
previous value is `old`: the shaded, clamped hit color when the ray
hits, and `old` when it does not. -/
noncomputable def pixelUpdate (scene : List (Cube ℝ)) (scene_light : Light ℝ)
    (camera_position : Vec3 ℝ) (image_width image_height : ℕ) (fov : ℝ)
    (x y : ℕ) (old : Vec3 ℝ) : Vec3 ℝ :=
  match resolveScene scene
      (ray_from_camera camera_position x y image_width image_height fov).1
      (ray_from_camera camera_position x y image_width image_height fov).2 with
  | (some closest_obj, some min_dist, some hit_normal) =>
      clip01
        ((compute_lighting
            ((ray_from_camera camera_position x y image_width image_height fov).1
              + min_dist • (ray_from_camera camera_position x y image_width image_height fov).2)
            hit_normal scene_light + ambient_light) • closest_obj.color)
  | _ => old

/-- The color of pixel `(x, y)` as a function of the scene, light,
camera configuration and the pixel's own coordinates only: the shaded,
clamped hit color when the ray hits, and black otherwise. -/
noncomputable def renderPixel (scene : List (Cube ℝ)) (scene_light : Light ℝ)
    (camera_position : Vec3 ℝ) (image_width image_height : ℕ) (fov : ℝ)
    (x y : ℕ) : Vec3 ℝ :=
  pixelUpdate scene scene_light camera_position image_width image_height fov x y ⟨0, 0, 0⟩

/-- `render` from the source: starting from an all-black image, run the
pixel loop over every row `y < image_height` and column
`x < image_width` in row-major order. -/
noncomputable def render (scene : List (Cube ℝ)) (scene_light : Light ℝ)
    (camera_position : Vec3 ℝ) (image_width image_height : ℕ) (fov : ℝ) : Image :=
  (List.range image_height).foldl
    (fun image y =>
      (List.range image_width).foldl
        (fun image x =>
          renderStep scene scene_light camera_position image_width image_height fov image y x)
        image)
    (fun _ _ => ⟨0, 0, 0⟩)

/-- Modelled from the spec: the exact AABB face-bound test that C8
compares against — for an axis-aligned face normal, check the two axes
orthogonal to the normal against the box's actual extents
`|p_j - center_j| ≤ side / 2`. -/
def aabbFaceBound {α : Type} [LinearOrderedField α] (c : Cube α) (n p : Vec3 α) : Prop :=
  (n.x = 0 → |p.x - c.center.x| ≤ c.side / 2) ∧
  (n.y = 0 → |p.y - c.center.y| ≤ c.side / 2) ∧
  (n.z = 0 → |p.z - c.center.z| ≤ c.side / 2)

/-- Sample box for concrete evaluations: the green cube of the source's
scene setup, over `ℚ`. -/
def cubeQ : Cube ℚ := ⟨⟨0, 0, -5⟩, 2, ⟨0, 1, 0⟩⟩

/-- A second sample box, further from the origin along `-z`. -/
def cubeQfar : Cube ℚ := ⟨⟨0, 0, -10⟩, 2, ⟨0, 1, 0⟩⟩

/-- Sample plane: the `+z` face plane of `cubeQ`. -/
def planeQ : Plane ℚ := ⟨⟨0, 0, -4⟩, ⟨0, 0, 1⟩, ⟨0, 1, 0⟩⟩

/-- Sample ray origin. -/
def originQ : Vec3 ℚ := ⟨0, 0, 0⟩

/-- Sample ray direction, aimed down the `-z` axis. -/
def dirQ : Vec3 ℚ := ⟨0, 0, -1⟩

/-- Sample box over `ℝ`: the green cube of the source's scene setup. -/
noncomputable def cubeR : Cube ℝ := ⟨⟨0, 0, -5⟩, 2, ⟨0, 1, 0⟩⟩

/-- Sample light over `ℝ`: the light of the source's scene setup. -/
noncomputable def lightR : Light ℝ := ⟨⟨-3, -4, -10⟩, 1.5⟩

/-- Sample camera position over `ℝ`, from the source's scene setup. -/
noncomputable def camR : Vec3 ℝ := ⟨22, -2, 0⟩

section VecLemmas

variable {α : Type} [LinearOrderedField α]

@[simp] lemma Vec3.add_x (a b : Vec3 α) : (a + b).x = a.x + b.x := rfl

@[simp] lemma Vec3.add_y (a b : Vec3 α) : (a + b).y = a.y + b.y := rfl

@[simp] lemma Vec3.add_z (a b : Vec3 α) : (a + b).z = a.z + b.z := rfl

@[simp] lemma Vec3.sub_x (a b : Vec3 α) : (a - b).x = a.x - b.x := rfl

@[simp] lemma Vec3.sub_y (a b : Vec3 α) : (a - b).y = a.y - b.y := rfl

@[simp] lemma Vec3.sub_z (a b : Vec3 α) : (a - b).z = a.z - b.z := rfl

@[simp] lemma Vec3.smul_x (t : α) (v : Vec3 α) : (t • v).x = t * v.x := rfl

@[simp] lemma Vec3.smul_y (t : α) (v : Vec3 α) : (t • v).y = t * v.y := rfl

@[simp] lemma Vec3.smul_z (t : α) (v : Vec3 α) : (t • v).z = t * v.z := rfl

@[simp] lemma Vec3.divScalar_x (v : Vec3 α) (t : α) : (v.divScalar t).x = v.x / t := rfl

@[simp] lemma Vec3.divScalar_y (v : Vec3 α) (t : α) : (v.divScalar t).y = v.y / t := rfl

@[simp] lemma Vec3.divScalar_z (v : Vec3 α) (t : α) : (v.divScalar t).z = v.z / t := rfl

@[simp] lemma Vec3.mk_add_mk (a1 a2 a3 b1 b2 b3 : α) :
    (⟨a1, a2, a3⟩ + ⟨b1, b2, b3⟩ : Vec3 α) = ⟨a1 + b1, a2 + b2, a3 + b3⟩ := rfl

@[simp] lemma Vec3.mk_sub_mk (a1 a2 a3 b1 b2 b3 : α) :
    (⟨a1, a2, a3⟩ - ⟨b1, b2, b3⟩ : Vec3 α) = ⟨a1 - b1, a2 - b2, a3 - b3⟩ := rfl

@[simp] lemma Vec3.smul_mk (t b1 b2 b3 : α) :
    (t • (⟨b1, b2, b3⟩ : Vec3 α)) = (⟨t * b1, t * b2, t * b3⟩ : Vec3 α) := rfl

end VecLemmas

section PlaneLemmas

variable {α : Type} [LinearOrderedField α]

/-- Characterization of a successful `Plane.intersect`. -/
lemma Plane.intersect_eq_some_iff (pl : Plane α) (o d : Vec3 α) (t : α) (n p : Vec3 α) :
    pl.intersect o d = some (t, n, p) ↔
      ¬ |Vec3.dot d pl.normal| < 1 / 1000000 ∧
      ¬ Vec3.dot (pl.point - o) pl.normal / Vec3.dot d pl.normal < 0 ∧
      t = Vec3.dot (pl.point - o) pl.normal / Vec3.dot d pl.normal ∧
      n = pl.normal ∧
      p = o + (Vec3.dot (pl.point - o) pl.normal / Vec3.dot d pl.normal) • d := by
  unfold Plane.intersect
  split_ifs with h1 h2
  · constructor
    · intro h
      exact absurd h (by simp)
    · rintro ⟨ha, -, -⟩
      exact absurd h1 ha
  · constructor
    · intro h
      exact absurd h (by simp)
    · rintro ⟨-, hb, -⟩
      exact absurd h2 hb
  · constructor
    · intro h
      injection h with h'
      rw [Prod.ext_iff, Prod.ext_iff] at h'
      exact ⟨h1, h2, h'.1.symm, h'.2.1.symm, h'.2.2.symm⟩
    · rintro ⟨-, -, rfl, rfl, rfl⟩
      rfl

/-- A successful `Plane.intersect` reports a non-negative distance, the
plane's own normal, and the point `o + t • d`. -/
lemma Plane.intersect_some_shape (pl : Plane α) (o d : Vec3 α) (t : α) (n p : Vec3 α)
    (h : pl.intersect o d = some (t, n, p)) :
    0 ≤ t ∧ n = pl.normal ∧ p = o + t • d := by
  rw [Plane.intersect_eq_some_iff] at h
  obtain ⟨-, h2, h3, h4, h5⟩ := h
  exact ⟨h3 ▸ not_lt.mp h2, h4, by rw [h3, h5]⟩

end PlaneLemmas

/-- C3: for every ray `(origin, direction)` and plane, with
`denom = dot(direction, normal)` and
`t = dot(plane.point - origin, normal) / denom`, `Plane.intersect`
returns `none` iff `|denom| < 1e-6` or `t < 0`; otherwise it returns
`t`, the plane's normal and the hit point `origin + t • direction`
(in particular `t = 0` is accepted). -/
theorem plane_intersect_rule {α : Type} [LinearOrderedField α] (pl : Plane α) (o d : Vec3 α) :
    (pl.intersect o d = none ↔
        |Vec3.dot d pl.normal| < 1 / 1000000 ∨
        Vec3.dot (pl.point - o) pl.normal / Vec3.dot d pl.normal < 0) ∧
    (¬ (|Vec3.dot d pl.normal| < 1 / 1000000 ∨
        Vec3.dot (pl.point - o) pl.normal / Vec3.dot d pl.normal < 0) →
      pl.intersect o d =
        some (Vec3.dot (pl.point - o) pl.normal / Vec3.dot d pl.normal, pl.normal,
          o + (Vec3.dot (pl.point - o) pl.normal / Vec3.dot d pl.normal) • d)) := by
  unfold Plane.intersect
  split_ifs with h1 h2
  · exact ⟨iff_of_true rfl (Or.inl h1), fun hc => absurd (Or.inl h1) hc⟩
  · exact ⟨iff_of_true rfl (Or.inr h2), fun hc => absurd (Or.inr h2) hc⟩
  · exact ⟨iff_of_false (by simp) (not_or.mpr ⟨h1, h2⟩), fun _ => rfl⟩

section CubeLemmas

variable {α : Type} [LinearOrderedField α]

/-- Invariant of the plane loop of `Cube.intersect`: the fold either
returns `(none, none)` and no face accepted a hit, or it returns the
distance and normal of an accepted face hit that strictly beats every
accepted hit before it and weakly beats every accepted hit after it. -/
lemma cube_intersectAux_cases (c : Cube α) (o d : Vec3 α) (ps : List (Plane α)) :
    (c.intersectAux o d ps = (none, none) ∧
      ∀ pl ∈ ps, ∀ t n p, pl.intersect o d = some (t, n, p) → ¬ c.inBounds n p)
    ∨ (∃ t n pl p l1 l2, c.intersectAux o d ps = (some t, some n) ∧
        ps = l1 ++ pl :: l2 ∧ pl.intersect o d = some (t, n, p) ∧ c.inBounds n p ∧
        (∀ pl' ∈ l1, ∀ t' n' p', pl'.intersect o d = some (t', n', p') →
          c.inBounds n' p' → t < t') ∧
        (∀ pl' ∈ l2, ∀ t' n' p', pl'.intersect o d = some (t', n', p') →
          c.inBounds n' p' → t ≤ t')) := by
  induction ps using List.reverseRecOn with
  | nil =>
      left
      exact ⟨rfl, by simp⟩
  | append_singleton l a ih =>
      have hstep : c.intersectAux o d (l ++ [a]) =
          cubeStep c o d (c.intersectAux o d l) a := by
        unfold Cube.intersectAux
        rw [List.foldl_append, List.foldl_cons, List.foldl_nil]
      rcases ih with ⟨heq, hnone⟩ | ⟨t, n, pl, p, l1, l2, heq, hsplit, hhit, hb, hl1, hl2⟩
      · rcases ha : a.intersect o d with _ | ⟨t', n', p'⟩
        · left
          refine ⟨?_, ?_⟩
          · rw [hstep, heq]
            simp [cubeStep, ha]
          · intro pl hpl t n p hint
            rcases List.mem_append.mp hpl with h | h
            · exact hnone pl h t n p hint
            · simp only [List.mem_singleton] at h
              subst h
              rw [ha] at hint
              exact absurd hint (by simp)
        · by_cases hb' : c.inBounds n' p'
          · right
            refine ⟨t', n', a, p', l, [], ?_, by simp, ha, hb', ?_, by simp⟩
            · rw [hstep, heq]
              simp [cubeStep, ha, hb']
            · intro pl' hpl' t'' n'' p'' hint hbb
              exact absurd hbb (hnone pl' hpl' t'' n'' p'' hint)
          · left
            refine ⟨?_, ?_⟩
            · rw [hstep, heq]
              simp [cubeStep, ha, hb']
            · intro pl hpl t n p hint
              rcases List.mem_append.mp hpl with h | h
              · exact hnone pl h t n p hint
              · simp only [List.mem_singleton] at h
                subst h
                rw [ha] at hint
                injection hint with h'
                simp only [Prod.mk.injEq] at h'
                obtain ⟨-, h2, h3⟩ := h'
                rw [← h2, ← h3]
                exact hb'
      · rcases ha : a.intersect o d with _ | ⟨t', n', p'⟩
        · right
          refine ⟨t, n, pl, p, l1, l2 ++ [a], ?_, ?_, hhit, hb, hl1, ?_⟩
          · rw [hstep, heq]
            simp [cubeStep, ha]
          · rw [hsplit]
            simp
          · intro pl' hpl' t'' n'' p'' hint hbb
            rcases List.mem_append.mp hpl' with h | h
            · exact hl2 pl' h t'' n'' p'' hint hbb
            · simp only [List.mem_singleton] at h
              subst h
              rw [ha] at hint
              exact absurd hint (by simp)
        · by_cases hb' : c.inBounds n' p'
          · by_cases hlt : t' < t
            · right
              refine ⟨t', n', a, p', l, [], ?_, by simp, ha, hb', ?_, by simp⟩
              · rw [hstep, heq]
                simp [cubeStep, ha, hb', hlt]
              · intro pl' hpl' t'' n'' p'' hint hbb
                rw [hsplit] at hpl'
                rcases List.mem_append.mp hpl' with h | h
                · exact lt_trans hlt (hl1 pl' h t'' n'' p'' hint hbb)
                · rcases List.mem_cons.mp h with h | h
                  · subst h
                    rw [hhit] at hint
                    injection hint with h'
                    simp only [Prod.mk.injEq] at h'
                    rw [← h'.1]
                    exact hlt
                  · exact lt_of_lt_of_le hlt (hl2 pl' h t'' n'' p'' hint hbb)
            · right
              refine ⟨t, n, pl, p, l1, l2 ++ [a], ?_, ?_, hhit, hb, hl1, ?_⟩
              · rw [hstep, heq]
                simp [cubeStep, ha, hb', hlt]
              · rw [hsplit]
                simp
              · intro pl' hpl' t'' n'' p'' hint hbb
                rcases List.mem_append.mp hpl' with h | h
                · exact hl2 pl' h t'' n'' p'' hint hbb
                · simp only [List.mem_singleton] at h
                  subst h
                  rw [ha] at hint
                  injection hint with h'
                  simp only [Prod.mk.injEq] at h'
                  rw [← h'.1]
                  exact not_lt.mp hlt
          · right
            refine ⟨t, n, pl, p, l1, l2 ++ [a], ?_, ?_, hhit, hb, hl1, ?_⟩
            · rw [hstep, heq]
              simp [cubeStep, ha, hb']
            · rw [hsplit]
              simp
            · intro pl' hpl' t'' n'' p'' hint hbb
              rcases List.mem_append.mp hpl' with h | h
              · exact hl2 pl' h t'' n'' p'' hint hbb
              · simp only [List.mem_singleton] at h
                subst h
                rw [ha] at hint
                injection hint with h'
                simp only [Prod.mk.injEq] at h'
                obtain ⟨-, h2, h3⟩ := h'
                rw [← h2, ← h3] at hbb
                exact absurd hbb hb'

/-- The normal of any of a cube's six face planes is one of the six
axis-aligned unit vectors. -/
lemma cube_plane_normal_cases (c : Cube α) (pl : Plane α) (hmem : pl ∈ c.planes) :
    pl.normal = (⟨1, 0, 0⟩ : Vec3 α) ∨ pl.normal = ⟨-1, 0, 0⟩ ∨ pl.normal = ⟨0, 1, 0⟩ ∨
      pl.normal = ⟨0, -1, 0⟩ ∨ pl.normal = ⟨0, 0, 1⟩ ∨ pl.normal = ⟨0, 0, -1⟩ := by
  simp only [Cube.planes, List.mem_cons, List.not_mem_nil, or_false] at hmem
  rcases hmem with h | h | h | h | h | h <;> subst h <;> simp

/-- The point of any of a cube's six face planes is
`center + (side / 2) • normal`. -/
lemma cube_plane_point_eq (c : Cube α) (pl : Plane α) (hmem : pl ∈ c.planes) :
    pl.point = c.center + (c.side / 2) • pl.normal := by
  simp only [Cube.planes, List.mem_cons, List.not_mem_nil, or_false] at hmem
  rcases hmem with h | h | h | h | h | h <;> subst h <;> rfl

end CubeLemmas

/-- C2: for every ray and box, `Cube.intersect` runs plane intersection
on each of the six face planes, accepts a plane hit exactly when the
face-bound test `|hit_point - (center + normal * side / 2)| ≤ side / 2`
holds on all three axes, and returns the minimum distance among
accepted face hits with that face's normal, or `(none, none)` when no
face hit is accepted. -/
theorem cube_intersect_min_face {α : Type} [LinearOrderedField α] (c : Cube α)
    (o d : Vec3 α) :
    (c.intersect o d = (none, none) ↔
      ∀ pl ∈ c.planes, ∀ t n p, pl.intersect o d = some (t, n, p) → ¬ c.inBounds n p) ∧
    (∀ t n, c.intersect o d = (some t, some n) →
      (∃ pl ∈ c.planes, ∃ p, pl.intersect o d = some (t, n, p) ∧ c.inBounds n p) ∧
      (∀ pl ∈ c.planes, ∀ t' n' p', pl.intersect o d = some (t', n', p') →
        c.inBounds n' p' → t ≤ t')) := by
  have hI : c.intersect o d = c.intersectAux o d c.planes := rfl
  have H := cube_intersectAux_cases c o d c.planes
  constructor
  · constructor
    · intro he
      rcases H with ⟨-, h2⟩ | ⟨t, n, pl, p, l1, l2, heq, -⟩
      · exact h2
      · rw [hI, heq] at he
        exact absurd he (by simp)
    · intro hall
      rcases H with ⟨heq, -⟩ | ⟨t, n, pl, p, l1, l2, heq, hsplit, hhit, hb, -⟩
      · rw [hI, heq]
      · have hmem : pl ∈ c.planes := by
          rw [hsplit]
          exact List.mem_append_right _ (List.mem_cons_self _ _)
        exact absurd hb (hall pl hmem t n p hhit)
  · intro t n he
    rcases H with ⟨heq, -⟩ | ⟨t0, n0, pl, p, l1, l2, heq, hsplit, hhit, hb, hl1, hl2⟩
    · rw [hI, heq] at he
      exact absurd he (by simp)
    · rw [hI, heq] at he
      simp only [Prod.mk.injEq, Option.some.injEq] at he
      obtain ⟨rfl, rfl⟩ := he
      constructor
      · have hmem : pl ∈ c.planes := by
          rw [hsplit]
          exact List.mem_append_right _ (List.mem_cons_self _ _)
        exact ⟨pl, hmem, p, hhit, hb⟩
      · intro pl' hmem' t' n' p' hint hbb
        rw [hsplit] at hmem'
        rcases List.mem_append.mp hmem' with h | h
        · exact le_of_lt (hl1 pl' h t' n' p' hint hbb)
        · rcases List.mem_cons.mp h with h | h
          · subst h
            rw [hhit] at hint
            injection hint with h'
            simp only [Prod.mk.injEq] at h'
            exact le_of_eq h'.1
          · exact hl2 pl' h t' n' p' hint hbb

/-- Concrete instance of C2: the sample ray hits the sample cube's `+z`
face at the minimal accepted distance `4` with normal `(0, 0, 1)`. -/
theorem cube_intersect_min_face_witness :
    (∃ pl ∈ cubeQ.planes, ∃ p,
        pl.intersect originQ dirQ = some (4, ⟨0, 0, 1⟩, p) ∧ cubeQ.inBounds ⟨0, 0, 1⟩ p) ∧
    (∀ pl ∈ cubeQ.planes, ∀ t' n' p', pl.intersect originQ dirQ = some (t', n', p') →
      cubeQ.inBounds n' p' → (4 : ℚ) ≤ t') :=
  (cube_intersect_min_face cubeQ originQ dirQ).2 4 ⟨0, 0, 1⟩ (by
    norm_num [Cube.intersect, Cube.intersectAux, Cube.planes, cubeStep, Plane.intersect,
      Cube.inBounds, cubeQ, originQ, dirQ, Vec3.dot])

/-- C9: for every ray and box, `Cube.intersect` returns distance and
normal both absent or both present; a present distance is non-negative
and the present normal is one of the six axis-aligned unit vectors. -/
theorem cube_intersect_result_shape {α : Type} [LinearOrderedField α] (c : Cube α)
    (o d : Vec3 α) :
    ((c.intersect o d).1 = none ↔ (c.intersect o d).2 = none) ∧
    (∀ t n, c.intersect o d = (some t, some n) →
      0 ≤ t ∧
      (n = (⟨1, 0, 0⟩ : Vec3 α) ∨ n = ⟨-1, 0, 0⟩ ∨ n = ⟨0, 1, 0⟩ ∨ n = ⟨0, -1, 0⟩ ∨
        n = ⟨0, 0, 1⟩ ∨ n = ⟨0, 0, -1⟩)) := by
  have hI : c.intersect o d = c.intersectAux o d c.planes := rfl
  have H := cube_intersectAux_cases c o d c.planes
  constructor
  · rcases H with ⟨heq, -⟩ | ⟨t0, n0, pl, p, l1, l2, heq, -⟩
    · rw [hI, heq]
      simp
    · rw [hI, heq]
      simp
  · intro t n he
    rcases H with ⟨heq, -⟩ | ⟨t0, n0, pl, p, l1, l2, heq, hsplit, hhit, hb, -⟩
    · rw [hI, heq] at he
      exact absurd he (by simp)
    · rw [hI, heq] at he
      simp only [Prod.mk.injEq, Option.some.injEq] at he
      obtain ⟨rfl, rfl⟩ := he
      have hmem : pl ∈ c.planes := by
        rw [hsplit]
        exact List.mem_append_right _ (List.mem_cons_self _ _)
      obtain ⟨ht, hn, -⟩ := Plane.intersect_some_shape pl o d t0 n0 p hhit
      exact ⟨ht, hn ▸ cube_plane_normal_cases c pl hmem⟩

/-- Concrete instance of C9: on the sample cube and ray the result is a
non-negative distance paired with an axis-aligned unit normal. -/
theorem cube_intersect_result_shape_witness :
    (0 : ℚ) ≤ 4 ∧
    ((⟨0, 0, 1⟩ : Vec3 ℚ) = ⟨1, 0, 0⟩ ∨ (⟨0, 0, 1⟩ : Vec3 ℚ) = ⟨-1, 0, 0⟩ ∨
      (⟨0, 0, 1⟩ : Vec3 ℚ) = ⟨0, 1, 0⟩ ∨ (⟨0, 0, 1⟩ : Vec3 ℚ) = ⟨0, -1, 0⟩ ∨
      (⟨0, 0, 1⟩ : Vec3 ℚ) = ⟨0, 0, 1⟩ ∨ (⟨0, 0, 1⟩ : Vec3 ℚ) = ⟨0, 0, -1⟩) :=
  (cube_intersect_result_shape cubeQ originQ dirQ).2 4 ⟨0, 0, 1⟩ (by
    norm_num [Cube.intersect, Cube.intersectAux, Cube.planes, cubeStep, Plane.intersect,
      Cube.inBounds, cubeQ, originQ, dirQ, Vec3.dot])

section ResolveLemmas

variable {α : Type} [LinearOrderedField α]

/-- Invariant of the scene loop of `render`: the fold either returns
`(none, none, none)` and no object reported a hit, or it returns an
object that hit, with its distance and normal, such that its distance
strictly beats every hit before it and weakly beats every hit after
it. -/
lemma resolveScene_cases (o d : Vec3 α) (scene : List (Cube α)) :
    (resolveScene scene o d = (none, none, none) ∧
      ∀ obj ∈ scene, (obj.intersect o d).1 = none)
    ∨ (∃ obj dst n l1 l2, resolveScene scene o d = (some obj, some dst, n) ∧
        scene = l1 ++ obj :: l2 ∧ obj.intersect o d = (some dst, n) ∧
        (∀ o' ∈ l1, ∀ d', (o'.intersect o d).1 = some d' → dst < d') ∧
        (∀ o' ∈ l2, ∀ d', (o'.intersect o d).1 = some d' → dst ≤ d')) := by
  induction scene using List.reverseRecOn with
  | nil =>
      left
      exact ⟨rfl, by simp⟩
  | append_singleton l a ih =>
      have hstep : resolveScene (l ++ [a]) o d =
          resolveStep o d (resolveScene l o d) a := by
        unfold resolveScene
        rw [List.foldl_append, List.foldl_cons, List.foldl_nil]
      rcases ih with ⟨heq, hnone⟩ | ⟨obj, dst, n, l1, l2, heq, hsplit, hhit, hl1, hl2⟩
      · rcases ha : a.intersect o d with ⟨_ | da, na⟩
        · left
          refine ⟨?_, ?_⟩
          · rw [hstep, heq]
            simp [resolveStep, ha]
          · intro obj hobj
            rcases List.mem_append.mp hobj with h | h
            · exact hnone obj h
            · simp only [List.mem_singleton] at h
              subst h
              rw [ha]
        · right
          refine ⟨a, da, na, l, [], ?_, by simp, ha, ?_, by simp⟩
          · rw [hstep, heq]
            simp [resolveStep, ha]
          · intro o' ho' d' hint
            rw [hnone o' ho'] at hint
            exact absurd hint (by simp)
      · rcases ha : a.intersect o d with ⟨_ | da, na⟩
        · right
          refine ⟨obj, dst, n, l1, l2 ++ [a], ?_, ?_, hhit, hl1, ?_⟩
          · rw [hstep, heq]
            simp [resolveStep, ha]
          · rw [hsplit]
            simp
          · intro o' ho' d' hint
            rcases List.mem_append.mp ho' with h | h
            · exact hl2 o' h d' hint
            · simp only [List.mem_singleton] at h
              subst h
              rw [ha] at hint
              exact absurd hint (by simp)
        · by_cases hlt : da < dst
          · right
            refine ⟨a, da, na, l, [], ?_, by simp, ha, ?_, by simp⟩
            · rw [hstep, heq]
              simp [resolveStep, ha, hlt]
            · intro o' ho' d' hint
              rw [hsplit] at ho'
              rcases List.mem_append.mp ho' with h | h
              · exact lt_trans hlt (hl1 o' h d' hint)
              · rcases List.mem_cons.mp h with h | h
                · subst h
                  rw [hhit] at hint
                  simp only [Option.some.injEq] at hint
                  rw [← hint]
                  exact hlt
                · exact lt_of_lt_of_le hlt (hl2 o' h d' hint)
          · right
            refine ⟨obj, dst, n, l1, l2 ++ [a], ?_, ?_, hhit, hl1, ?_⟩
            · rw [hstep, heq]
              simp [resolveStep, ha, hlt]
            · rw [hsplit]
              simp
            · intro o' ho' d' hint
              rcases List.mem_append.mp ho' with h | h
              · exact hl2 o' h d' hint
              · simp only [List.mem_singleton] at h
                subst h
                rw [ha] at hint
                simp only [Option.some.injEq] at hint
                rw [← hint]
                exact not_lt.mp hlt

end ResolveLemmas

/-- C4: for every scene and ray, the resolver returns `(none, none,
none)` exactly when no object reports a hit; otherwise it returns an
object with globally minimal intersection distance together with that
distance and normal, and — because the comparison is strict `<` — the
first object attaining the minimal distance wins (every earlier hit is
strictly farther). -/
theorem resolve_nearest_first {α : Type} [LinearOrderedField α] (scene : List (Cube α))
    (o d : Vec3 α) :
    (resolveScene scene o d = (none, none, none) ↔
      ∀ obj ∈ scene, (obj.intersect o d).1 = none) ∧
    (∀ obj dst n, resolveScene scene o d = (some obj, some dst, n) →
      ∃ l1 l2, scene = l1 ++ obj :: l2 ∧ obj.intersect o d = (some dst, n) ∧
        (∀ o' ∈ l1, ∀ d', (o'.intersect o d).1 = some d' → dst < d') ∧
        (∀ o' ∈ scene, ∀ d', (o'.intersect o d).1 = some d' → dst ≤ d')) := by
  have H := resolveScene_cases o d scene
  constructor
  · constructor
    · intro he
      rcases H with ⟨-, h2⟩ | ⟨obj, dst, n, l1, l2, heq, -⟩
      · exact h2
      · rw [heq] at he
        exact absurd he (by simp)
    · intro hall
      rcases H with ⟨heq, -⟩ | ⟨obj, dst, n, l1, l2, heq, hsplit, hhit, -⟩
      · exact heq
      · have hmem : obj ∈ scene := by
          rw [hsplit]
          exact List.mem_append_right _ (List.mem_cons_self _ _)
        have := hall obj hmem
        rw [hhit] at this
        exact absurd this (by simp)
  · intro obj dst n he
    rcases H with ⟨heq, -⟩ | ⟨obj0, dst0, n0, l1, l2, heq, hsplit, hhit, hl1, hl2⟩
    · rw [heq] at he
      exact absurd he (by simp)
    · rw [heq] at he
      simp only [Prod.mk.injEq, Option.some.injEq] at he
      obtain ⟨rfl, rfl, rfl⟩ := he
      refine ⟨l1, l2, hsplit, hhit, hl1, ?_⟩
      intro o' ho' d' hint
      rw [hsplit] at ho'
      rcases List.mem_append.mp ho' with h | h
      · exact le_of_lt (hl1 o' h d' hint)
      · rcases List.mem_cons.mp h with h | h
        · subst h
          rw [hhit] at hint
          simp only [Option.some.injEq] at hint
          exact le_of_eq hint
        · exact hl2 o' h d' hint

/-- Concrete instance of C4: with a far cube listed before the sample
cube, the resolver picks the nearer sample cube at distance `4`. -/
theorem resolve_nearest_first_witness :
    ∃ l1 l2, [cubeQfar, cubeQ] = l1 ++ cubeQ :: l2 ∧
      cubeQ.intersect originQ dirQ = (some 4, some ⟨0, 0, 1⟩) ∧
      (∀ o' ∈ l1, ∀ d', (o'.intersect originQ dirQ).1 = some d' → (4 : ℚ) < d') ∧
      (∀ o' ∈ [cubeQfar, cubeQ], ∀ d',
        (o'.intersect originQ dirQ).1 = some d' → (4 : ℚ) ≤ d') :=
  (resolve_nearest_first [cubeQfar, cubeQ] originQ dirQ).2 cubeQ 4 (some ⟨0, 0, 1⟩) (by
    norm_num [resolveScene, resolveStep, Cube.intersect, Cube.intersectAux, Cube.planes,
      cubeStep, Plane.intersect, Cube.inBounds, cubeQ, cubeQfar, originQ, dirQ, Vec3.dot])

section FaceBoundLemmas

variable {α : Type} [LinearOrderedField α]

/-- Every point a plane reports as a hit lies on that plane. -/
lemma hit_on_plane (pl : Plane α) (o d : Vec3 α) (t : α) (n p : Vec3 α)
    (h : pl.intersect o d = some (t, n, p)) :
    Vec3.dot (p - pl.point) pl.normal = 0 := by
  obtain ⟨h1, -, -, -, hp⟩ := (Plane.intersect_eq_some_iff pl o d t n p).mp h
  have hd : Vec3.dot d pl.normal ≠ 0 := by
    intro h0
    apply h1
    rw [h0, abs_zero]
    norm_num
  subst hp
  simp only [Vec3.dot, Vec3.add_x, Vec3.add_y, Vec3.add_z, Vec3.sub_x, Vec3.sub_y, Vec3.sub_z,
    Vec3.smul_x, Vec3.smul_y, Vec3.smul_z] at hd ⊢
  field_simp
  ring

/-- On any hit point of one of a cube's face planes, the source's
face-bound test agrees with the exact AABB face-bound test. -/
lemma inBounds_iff_aabb (c : Cube α) (o d : Vec3 α) (pl : Plane α) (hmem : pl ∈ c.planes)
    (t : α) (n p : Vec3 α) (h : pl.intersect o d = some (t, n, p)) :
    (c.inBounds n p ↔ aabbFaceBound c n p) := by
  have hon := hit_on_plane pl o d t n p h
  have hn : n = pl.normal := ((Plane.intersect_eq_some_iff pl o d t n p).mp h).2.2.2.1
  subst hn
  simp only [Cube.planes, List.mem_cons, List.not_mem_nil, or_false] at hmem
  rcases hmem with hm | hm | hm | hm | hm | hm <;> subst hm
  · have hx0 : p.x = c.center.x + c.side / 2 := by
      have h' := hon
      simp [Vec3.dot] at h'
      linarith
    constructor
    · rintro ⟨hX, hY, hZ⟩
      exact ⟨fun h10 => absurd h10 (by norm_num), fun _ => by simpa using hY,
        fun _ => by simpa using hZ⟩
    · rintro ⟨-, hY', hZ'⟩
      have hY := hY' rfl
      have hZ := hZ' rfl
      have h0s : (0 : α) ≤ c.side / 2 := le_trans (abs_nonneg _) hY
      refine ⟨?_, by simpa using hY, by simpa using hZ⟩
      have hzero : p.x - (c.center + (c.side / 2) • (⟨1, 0, 0⟩ : Vec3 α)).x = 0 := by
        simp [hx0]
      rw [hzero, abs_zero]
      exact h0s
  · have hx0 : p.x = c.center.x - c.side / 2 := by
      have h' := hon
      simp [Vec3.dot] at h'
      linarith
    constructor
    · rintro ⟨hX, hY, hZ⟩
      exact ⟨fun h10 => absurd h10 (by norm_num), fun _ => by simpa using hY,
        fun _ => by simpa using hZ⟩
    · rintro ⟨-, hY', hZ'⟩
      have hY := hY' rfl
      have hZ := hZ' rfl
      have h0s : (0 : α) ≤ c.side / 2 := le_trans (abs_nonneg _) hY
      refine ⟨?_, by simpa using hY, by simpa using hZ⟩
      have hzero : p.x - (c.center + (c.side / 2) • (⟨-1, 0, 0⟩ : Vec3 α)).x = 0 := by
        simp [hx0]
        ring
      rw [hzero, abs_zero]
      exact h0s
  · have hy0 : p.y = c.center.y + c.side / 2 := by
      have h' := hon
      simp [Vec3.dot] at h'
      linarith
    constructor
    · rintro ⟨hX, hY, hZ⟩
      exact ⟨fun _ => by simpa using hX, fun h10 => absurd h10 (by norm_num),
        fun _ => by simpa using hZ⟩
    · rintro ⟨hX', -, hZ'⟩
      have hX := hX' rfl
      have hZ := hZ' rfl
      have h0s : (0 : α) ≤ c.side / 2 := le_trans (abs_nonneg _) hX
      refine ⟨by simpa using hX, ?_, by simpa using hZ⟩
      have hzero : p.y - (c.center + (c.side / 2) • (⟨0, 1, 0⟩ : Vec3 α)).y = 0 := by
        simp [hy0]
      rw [hzero, abs_zero]
      exact h0s
  · have hy0 : p.y = c.center.y - c.side / 2 := by
      have h' := hon
      simp [Vec3.dot] at h'
      linarith
    constructor
    · rintro ⟨hX, hY, hZ⟩
      exact ⟨fun _ => by simpa using hX, fun h10 => absurd h10 (by norm_num),
        fun _ => by simpa using hZ⟩
    · rintro ⟨hX', -, hZ'⟩
      have hX := hX' rfl
      have hZ := hZ' rfl
      have h0s : (0 : α) ≤ c.side / 2 := le_trans (abs_nonneg _) hX
      refine ⟨by simpa using hX, ?_, by simpa using hZ⟩
      have hzero : p.y - (c.center + (c.side / 2) • (⟨0, -1, 0⟩ : Vec3 α)).y = 0 := by
        simp [hy0]
        ring
      rw [hzero, abs_zero]
      exact h0s
  · have hz0 : p.z = c.center.z + c.side / 2 := by
      have h' := hon
      simp [Vec3.dot] at h'
      linarith
    constructor
    · rintro ⟨hX, hY, hZ⟩
      exact ⟨fun _ => by simpa using hX, fun _ => by simpa using hY,
        fun h10 => absurd h10 (by norm_num)⟩
    · rintro ⟨hX', hY', -⟩
      have hX := hX' rfl
      have hY := hY' rfl
      have h0s : (0 : α) ≤ c.side / 2 := le_trans (abs_nonneg _) hX
      refine ⟨by simpa using hX, by simpa using hY, ?_⟩
      have hzero : p.z - (c.center + (c.side / 2) • (⟨0, 0, 1⟩ : Vec3 α)).z = 0 := by
        simp [hz0]
      rw [hzero, abs_zero]
      exact h0s
  · have hz0 : p.z = c.center.z - c.side / 2 := by
      have h' := hon
      simp [Vec3.dot] at h'
      linarith
    constructor
    · rintro ⟨hX, hY, hZ⟩
      exact ⟨fun _ => by simpa using hX, fun _ => by simpa using hY,
        fun h10 => absurd h10 (by norm_num)⟩
    · rintro ⟨hX', hY', -⟩
      have hX := hX' rfl
      have hY := hY' rfl
      have h0s : (0 : α) ≤ c.side / 2 := le_trans (abs_nonneg _) hX
      refine ⟨by simpa using hX, by simpa using hY, ?_⟩
      have hzero : p.z - (c.center + (c.side / 2) • (⟨0, 0, -1⟩ : Vec3 α)).z = 0 := by
        simp [hz0]
        ring
      rw [hzero, abs_zero]
      exact h0s

end FaceBoundLemmas

/-- C8 (amended): on every hit point that plane intersection reports
for one of a box's six face planes, the source's face-bound test
`|hit_point - (center + normal * side / 2)| ≤ side / 2` (all three
axes) is equivalent to the exact AABB face-bound test that checks the
two axes orthogonal to the face normal against the box's actual
extents: the accept/reject decisions never differ in exact
arithmetic. -/
theorem face_bound_equiv_aabb {α : Type} [LinearOrderedField α] (c : Cube α)
    (o d : Vec3 α) (pl : Plane α) (hmem : pl ∈ c.planes) (t : α) (n p : Vec3 α)
    (h : pl.intersect o d = some (t, n, p)) :
    (c.inBounds n p ↔ aabbFaceBound c n p) :=
  inBounds_iff_aabb c o d pl hmem t n p h

/-- C8 counterexample to the claim as stated: there is no ray and box
on which the source's face-bound decision differs from the exact AABB
face-bound decision at a reported plane hit. -/
theorem face_bound_never_differs :
    ¬ ∃ (c : Cube ℝ) (o d : Vec3 ℝ) (pl : Plane ℝ) (t : ℝ) (n p : Vec3 ℝ),
        pl ∈ c.planes ∧ pl.intersect o d = some (t, n, p) ∧
        ¬ (c.inBounds n p ↔ aabbFaceBound c n p) := by
  rintro ⟨c, o, d, pl, t, n, p, hmem, h, hne⟩
  exact hne (inBounds_iff_aabb c o d pl hmem t n p h)

/-- Concrete instance of C8 (amended): on the sample hit the two bound
tests agree. -/
theorem face_bound_equiv_aabb_witness :
    cubeQ.inBounds ⟨0, 0, 1⟩ ⟨0, 0, -4⟩ ↔ aabbFaceBound cubeQ ⟨0, 0, 1⟩ ⟨0, 0, -4⟩ :=
  face_bound_equiv_aabb cubeQ originQ dirQ planeQ
    (by norm_num [Cube.planes, cubeQ, planeQ]) 4 ⟨0, 0, 1⟩ ⟨0, 0, -4⟩
    (by norm_num [Plane.intersect, planeQ, originQ, dirQ, Vec3.dot])

section NormLemmas

variable {α : Type} [LinearOrderedField α]

/-- The dot product of a vector with itself is non-negative. -/
lemma dot_self_nonneg (v : Vec3 α) : 0 ≤ Vec3.dot v v := by
  simp only [Vec3.dot]
  nlinarith [mul_self_nonneg v.x, mul_self_nonneg v.y, mul_self_nonneg v.z]

/-- Dividing one argument of the dot product by a scalar divides the
dot product (also at scalar `0`, where both sides vanish). -/
lemma dot_divScalar (v : Vec3 α) (s : α) (n : Vec3 α) :
    Vec3.dot (v.divScalar s) n = Vec3.dot v n / s := by
  simp only [Vec3.dot, Vec3.divScalar_x, Vec3.divScalar_y, Vec3.divScalar_z]
  rw [div_mul_eq_mul_div, div_mul_eq_mul_div, div_mul_eq_mul_div, div_add_div_same,
    div_add_div_same]

/-- `norm3` is non-negative. -/
lemma norm3_nonneg (v : Vec3 ℝ) : 0 ≤ norm3 v := Real.sqrt_nonneg _

/-- Cauchy–Schwarz for the embedded 3-vectors. -/
lemma dot_le_norm3_mul (u v : Vec3 ℝ) : Vec3.dot u v ≤ norm3 u * norm3 v := by
  have h2 : Vec3.dot u v ^ 2 ≤ Vec3.dot u u * Vec3.dot v v := by
    simp only [Vec3.dot]
    nlinarith [sq_nonneg (u.x * v.y - u.y * v.x), sq_nonneg (u.x * v.z - u.z * v.x),
      sq_nonneg (u.y * v.z - u.z * v.y)]
  calc Vec3.dot u v ≤ |Vec3.dot u v| := le_abs_self _
    _ = Real.sqrt (Vec3.dot u v ^ 2) := (Real.sqrt_sq_eq_abs _).symm
    _ ≤ Real.sqrt (Vec3.dot u u * Vec3.dot v v) := Real.sqrt_le_sqrt h2
    _ = norm3 u * norm3 v := by
        rw [norm3, norm3, ← Real.sqrt_mul (dot_self_nonneg u)]

end NormLemmas

/-- C6: for every point, every unit normal and every light with
non-negative intensity, the Lambertian term computed by
`compute_lighting` lies in `[0, intensity]`, so the total shading
intensity (Lambertian plus the fixed ambient `0.1`) lies in
`[0, intensity + 0.1]` and is never negative. -/
theorem lighting_intensity_bounds (point normal : Vec3 ℝ) (L : Light ℝ)
    (hn : Vec3.dot normal normal = 1) (hI : 0 ≤ L.intensity) :
    (0 ≤ compute_lighting point normal L ∧ compute_lighting point normal L ≤ L.intensity) ∧
    (0 ≤ compute_lighting point normal L + ambient_light ∧
      compute_lighting point normal L + ambient_light ≤ L.intensity + ambient_light) := by
  have hamb : (0 : ℝ) ≤ ambient_light := by norm_num [ambient_light]
  have hcl : compute_lighting point normal L =
      max (Vec3.dot ((L.position - point).divScalar (lightDirDenom L point)) normal) 0 *
        L.intensity := rfl
  have hq : Vec3.dot ((L.position - point).divScalar (lightDirDenom L point)) normal ≤ 1 := by
    rw [dot_divScalar]
    rcases eq_or_lt_of_le (norm3_nonneg (L.position - point)) with hs | hs
    · rw [lightDirDenom, ← hs, div_zero]
      exact zero_le_one
    · rw [lightDirDenom, div_le_one hs]
      calc Vec3.dot (L.position - point) normal
          ≤ norm3 (L.position - point) * norm3 normal := dot_le_norm3_mul _ _
        _ = norm3 (L.position - point) := by
            rw [show norm3 normal = 1 by rw [norm3, hn, Real.sqrt_one], mul_one]
  have hmax0 : (0 : ℝ) ≤ max (Vec3.dot ((L.position - point).divScalar
      (lightDirDenom L point)) normal) 0 := le_max_right _ _
  have hlow : 0 ≤ compute_lighting point normal L := by
    rw [hcl]
    exact mul_nonneg hmax0 hI
  have hhigh : compute_lighting point normal L ≤ L.intensity := by
    rw [hcl]
    calc max (Vec3.dot ((L.position - point).divScalar (lightDirDenom L point)) normal) 0 *
          L.intensity
        ≤ 1 * L.intensity := mul_le_mul_of_nonneg_right (max_le hq zero_le_one) hI
      _ = L.intensity := one_mul _
  exact ⟨⟨hlow, hhigh⟩, ⟨add_nonneg hlow hamb, add_le_add_right hhigh _⟩⟩

/-- Concrete instance of C6: shading bounds at the origin with the unit
normal `(0, 0, 1)` and the source's light. -/
theorem lighting_intensity_bounds_witness :
    (0 ≤ compute_lighting ⟨0, 0, 0⟩ ⟨0, 0, 1⟩ ⟨⟨-3, -4, -10⟩, 1.5⟩ ∧
      compute_lighting ⟨0, 0, 0⟩ ⟨0, 0, 1⟩ ⟨⟨-3, -4, -10⟩, 1.5⟩ ≤
        (⟨⟨-3, -4, -10⟩, 1.5⟩ : Light ℝ).intensity) ∧
    (0 ≤ compute_lighting ⟨0, 0, 0⟩ ⟨0, 0, 1⟩ ⟨⟨-3, -4, -10⟩, 1.5⟩ + ambient_light ∧
      compute_lighting ⟨0, 0, 0⟩ ⟨0, 0, 1⟩ ⟨⟨-3, -4, -10⟩, 1.5⟩ + ambient_light ≤
        (⟨⟨-3, -4, -10⟩, 1.5⟩ : Light ℝ).intensity + ambient_light) :=
  lighting_intensity_bounds ⟨0, 0, 0⟩ ⟨0, 0, 1⟩ ⟨⟨-3, -4, -10⟩, 1.5⟩
    (by norm_num [Vec3.dot]) (by norm_num)

/-- C10: the divisor `compute_lighting` normalizes by — with no zero
guard — vanishes exactly when the shaded point coincides with the light
position: away from that configuration the normalization is
well-defined, and at it the computation divides by zero. -/
theorem lighting_divisor_zero_iff (L : Light ℝ) (point : Vec3 ℝ) :
    lightDirDenom L point = 0 ↔ point = L.position := by
  unfold lightDirDenom norm3
  constructor
  · intro h
    have hle := Real.sqrt_eq_zero'.mp h
    have h0 : Vec3.dot (L.position - point) (L.position - point) = 0 :=
      le_antisymm hle (dot_self_nonneg _)
    simp only [Vec3.dot, Vec3.sub_x, Vec3.sub_y, Vec3.sub_z] at h0
    have hx2 : (L.position.x - point.x) * (L.position.x - point.x) ≤ 0 := by
      nlinarith [mul_self_nonneg (L.position.y - point.y),
        mul_self_nonneg (L.position.z - point.z)]
    have hy2 : (L.position.y - point.y) * (L.position.y - point.y) ≤ 0 := by
      nlinarith [mul_self_nonneg (L.position.x - point.x),
        mul_self_nonneg (L.position.z - point.z)]
    have hz2 : (L.position.z - point.z) * (L.position.z - point.z) ≤ 0 := by
      nlinarith [mul_self_nonneg (L.position.x - point.x),
        mul_self_nonneg (L.position.y - point.y)]
    have hx := mul_self_eq_zero.mp (le_antisymm hx2 (mul_self_nonneg _))
    have hy := mul_self_eq_zero.mp (le_antisymm hy2 (mul_self_nonneg _))
    have hz := mul_self_eq_zero.mp (le_antisymm hz2 (mul_self_nonneg _))
    ext
    · linarith
    · linarith
    · linarith
  · intro h
    subst h
    simp [Vec3.dot]

/-- C5: for every pixel, image size and field of view, the generated
camera ray has origin exactly the camera position and direction
`normalize ((2(x+0.5)/w - 1) * (w/h) * tan(fov/2), (1 - 2(y+0.5)/h) *
tan(fov/2), -1)` with the field of view converted to radians. -/
theorem camera_ray_rule (cam : Vec3 ℝ) (x y image_width image_height : ℕ) (fov : ℝ) :
    ray_from_camera cam x y image_width image_height fov =
      (cam,
        normalize3
          ⟨(2 * ((x : ℝ) + 0.5) / (image_width : ℝ) - 1) *
              ((image_width : ℝ) / (image_height : ℝ)) * Real.tan (fov / 2 * (Real.pi / 180)),
            (1 - 2 * ((y : ℝ) + 0.5) / (image_height : ℝ)) * Real.tan (fov / 2 * (Real.pi / 180)),
            -1⟩) := by
  have harg : fov * 0.5 * Real.pi / 180 = fov / 2 * (Real.pi / 180) := by ring
  simp only [ray_from_camera, normalize3]
  rw [harg]

section RenderLemmas

/-- `Cube.intersect` returns its distance and normal together: one is
`none` exactly when the other is. -/
lemma cube_intersect_both_none {α : Type} [LinearOrderedField α] (c : Cube α) (o d : Vec3 α) :
    (c.intersect o d).1 = none ↔ (c.intersect o d).2 = none := by
  have hI : c.intersect o d = c.intersectAux o d c.planes := rfl
  rcases cube_intersectAux_cases c o d c.planes with ⟨heq, -⟩ | ⟨t0, n0, pl, p, l1, l2, heq, -⟩ <;>
    rw [hI, heq] <;> simp

/-- One pixel-loop step, evaluated at an arbitrary pixel: only the
written pixel changes, and it changes to `pixelUpdate` of its previous
value. -/
lemma renderStep_apply (scene : List (Cube ℝ)) (L : Light ℝ) (cam : Vec3 ℝ)
    (w h : ℕ) (fov : ℝ) (img : Image) (y x y' x' : ℕ) :
    renderStep scene L cam w h fov img y x y' x' =
      if y' = y ∧ x' = x then pixelUpdate scene L cam w h fov x y (img y x) else img y' x' := by
  unfold renderStep pixelUpdate
  rcases hr : resolveScene scene (ray_from_camera cam x y w h fov).1
      (ray_from_camera cam x y w h fov).2 with ⟨_ | obj, _ | dst, _ | n⟩ <;>
    first
      | rfl
      | (by_cases hc : y' = y ∧ x' = x
         · obtain ⟨h1, h2⟩ := hc
           subst h1
           subst h2
           rw [if_pos ⟨rfl, rfl⟩]
         · rw [if_neg hc])

/-- The row loop of `render`, evaluated at an arbitrary pixel: pixels
of row `y` with column below `n` hold their updated value, all other
pixels are untouched. -/
lemma renderRow_apply (scene : List (Cube ℝ)) (L : Light ℝ) (cam : Vec3 ℝ)
    (w h : ℕ) (fov : ℝ) (img : Image) (y n y' x' : ℕ) :
    ((List.range n).foldl (fun im x => renderStep scene L cam w h fov im y x) img) y' x' =
      if y' = y ∧ x' < n then pixelUpdate scene L cam w h fov x' y (img y x')
      else img y' x' := by
  induction n with
  | zero => simp
  | succ k ih =>
      rw [List.range_succ, List.foldl_append, List.foldl_cons, List.foldl_nil, renderStep_apply]
      by_cases hc : y' = y ∧ x' = k
      · obtain ⟨h1, h2⟩ := hc
        subst h1
        subst h2
        rw [if_pos ⟨rfl, rfl⟩, ih, if_neg (by simp), if_pos ⟨rfl, Nat.lt_succ_self _⟩]
      · rw [if_neg hc, ih]
        by_cases h1 : y' = y ∧ x' < k
        · rw [if_pos h1, if_pos ⟨h1.1, Nat.lt_succ_of_lt h1.2⟩]
        · have hnot : ¬ (y' = y ∧ x' < k + 1) := by
            rintro ⟨rfl, hlt⟩
            rcases Nat.lt_succ_iff_lt_or_eq.mp hlt with hl | hl
            · exact h1 ⟨rfl, hl⟩
            · exact hc ⟨rfl, hl⟩
          rw [if_neg h1, if_neg hnot]

/-- The full render fold over the first `m` rows, evaluated at an
arbitrary pixel: processed pixels hold `renderPixel`, everything else
is still black. -/
lemma render_fold_apply (scene : List (Cube ℝ)) (L : Light ℝ) (cam : Vec3 ℝ)
    (w h : ℕ) (fov : ℝ) (m y' x' : ℕ) :
    ((List.range m).foldl
        (fun image y =>
          (List.range w).foldl
            (fun image x => renderStep scene L cam w h fov image y x) image)
        (fun _ _ => (⟨0, 0, 0⟩ : Vec3 ℝ))) y' x' =
      if y' < m ∧ x' < w then renderPixel scene L cam w h fov x' y'
      else (⟨0, 0, 0⟩ : Vec3 ℝ) := by
  induction m with
  | zero => simp
  | succ k ih =>
      rw [List.range_succ, List.foldl_append, List.foldl_cons, List.foldl_nil, renderRow_apply]
      by_cases hc : y' = k ∧ x' < w
      · obtain ⟨h1, hx⟩ := hc
        subst h1
        rw [if_pos ⟨rfl, hx⟩, ih, if_neg (by simp), if_pos ⟨Nat.lt_succ_self _, hx⟩]
        rfl
      · rw [if_neg hc, ih]
        by_cases h1 : y' < k ∧ x' < w
        · rw [if_pos h1, if_pos ⟨Nat.lt_succ_of_lt h1.1, h1.2⟩]
        · have hnot : ¬ (y' < k + 1 ∧ x' < w) := by
            rintro ⟨hlt, hxw⟩
            rcases Nat.lt_succ_iff_lt_or_eq.mp hlt with hl | hl
            · exact h1 ⟨hl, hxw⟩
            · exact hc ⟨hl, hxw⟩
          rw [if_neg h1, if_neg hnot]

/-- Every in-range pixel of the rendered image equals the pure
per-pixel function `renderPixel`. -/
lemma render_apply (scene : List (Cube ℝ)) (L : Light ℝ) (cam : Vec3 ℝ)
    (w h : ℕ) (fov : ℝ) (x y : ℕ) (hy : y < h) (hx : x < w) :
    render scene L cam w h fov y x = renderPixel scene L cam w h fov x y := by
  unfold render
  rw [render_fold_apply, if_pos ⟨hy, hx⟩]

end RenderLemmas

/-- C1: for every in-range pixel `(x, y)`, `render` generates the
camera ray for that pixel, resolves the nearest hit over the scene,
and, when a hit exists, stores at `image y x` the componentwise product
of the hit object's color with the Lambertian shading at
`hit_point = origin + distance • direction` plus the fixed ambient
`0.1`, each channel clamped to `[0, 1]`; when no hit exists the pixel
is `(0, 0, 0)`.  The resolver's reachable results are exactly the
no-hit triple or an all-present hit triple. -/
theorem render_pixel_formula (scene : List (Cube ℝ)) (L : Light ℝ) (cam : Vec3 ℝ)
    (w h : ℕ) (fov : ℝ) (x y : ℕ) (hy : y < h) (hx : x < w) :
    (render scene L cam w h fov y x =
      match resolveScene scene (ray_from_camera cam x y w h fov).1
          (ray_from_camera cam x y w h fov).2 with
      | (some obj, some dst, some n) =>
          clip01 ((compute_lighting ((ray_from_camera cam x y w h fov).1
              + dst • (ray_from_camera cam x y w h fov).2) n L + ambient_light) • obj.color)
      | _ => ⟨0, 0, 0⟩) ∧
    (resolveScene scene (ray_from_camera cam x y w h fov).1
        (ray_from_camera cam x y w h fov).2 = (none, none, none) ∨
      ∃ obj dst n, resolveScene scene (ray_from_camera cam x y w h fov).1
          (ray_from_camera cam x y w h fov).2 = (some obj, some dst, some n)) := by
  constructor
  · rw [render_apply scene L cam w h fov x y hy hx]
    unfold renderPixel pixelUpdate
    rcases hr : resolveScene scene (ray_from_camera cam x y w h fov).1
        (ray_from_camera cam x y w h fov).2 with ⟨_ | obj, _ | dst, _ | n⟩ <;>
      rfl
  · rcases resolveScene_cases (ray_from_camera cam x y w h fov).1
        (ray_from_camera cam x y w h fov).2 scene with
      ⟨heq, -⟩ | ⟨obj, dst, n, l1, l2, heq, -, hhit, -⟩
    · exact Or.inl heq
    · rcases hn : n with _ | nv
      · exfalso
        have h2 : (obj.intersect (ray_from_camera cam x y w h fov).1
            (ray_from_camera cam x y w h fov).2).2 = none := by
          rw [hhit, hn]
        have h1 := (cube_intersect_both_none obj (ray_from_camera cam x y w h fov).1
            (ray_from_camera cam x y w h fov).2).mpr h2
        rw [hhit] at h1
        exact absurd h1 (by simp)
      · right
        exact ⟨obj, dst, nv, by rw [heq, hn]⟩

/-- Concrete instance of C1 at pixel `(0, 0)` of the source's scene
configuration. -/
theorem render_pixel_formula_witness :
    (render [cubeR] lightR camR 800 600 90 0 0 =
      match resolveScene [cubeR] (ray_from_camera camR 0 0 800 600 90).1
          (ray_from_camera camR 0 0 800 600 90).2 with
      | (some obj, some dst, some n) =>
          clip01 ((compute_lighting ((ray_from_camera camR 0 0 800 600 90).1
              + dst • (ray_from_camera camR 0 0 800 600 90).2) n lightR + ambient_light) •
            obj.color)
      | _ => ⟨0, 0, 0⟩) ∧
    (resolveScene [cubeR] (ray_from_camera camR 0 0 800 600 90).1
        (ray_from_camera camR 0 0 800 600 90).2 = (none, none, none) ∨
      ∃ obj dst n, resolveScene [cubeR] (ray_from_camera camR 0 0 800 600 90).1
          (ray_from_camera camR 0 0 800 600 90).2 = (some obj, some dst, some n)) :=
  render_pixel_formula [cubeR] lightR camR 800 600 90 0 0 (by decide) (by decide)

/-- C7: `render` is deterministic — the same inputs give the same image
— and each in-range pixel's value is the pure function `renderPixel` of
the scene, light, camera configuration, and that pixel's own
coordinates only. -/
theorem render_deterministic_pixelwise (scene : List (Cube ℝ)) (L : Light ℝ) (cam : Vec3 ℝ)
    (w h : ℕ) (fov : ℝ) :
    render scene L cam w h fov = render scene L cam w h fov ∧
    ∀ y x, y < h → x < w →
      render scene L cam w h fov y x = renderPixel scene L cam w h fov x y :=
  ⟨rfl, fun y x hy hx => render_apply scene L cam w h fov x y hy hx⟩

/-- Concrete instance of C7 at pixel `(0, 0)` of the source's scene
configuration. -/
theorem render_deterministic_pixelwise_witness :
    render [cubeR] lightR camR 800 600 90 0 0 = renderPixel [cubeR] lightR camR 800 600 90 0 0 :=
  (render_deterministic_pixelwise [cubeR] lightR camR 800 600 90).2 0 0 (by decide) (by decide)

/-- Concrete instance of C3: a ray down `-z` from the origin meets the
`+z` face plane of the sample cube at distance `4`. -/
theorem plane_intersect_rule_witness :
    planeQ.intersect originQ dirQ =
      some (Vec3.dot (planeQ.point - originQ) planeQ.normal / Vec3.dot dirQ planeQ.normal,
        planeQ.normal,
        originQ +
          (Vec3.dot (planeQ.point - originQ) planeQ.normal / Vec3.dot dirQ planeQ.normal) • dirQ) :=
  (plane_intersect_rule planeQ originQ dirQ).2 (by norm_num [planeQ, originQ, dirQ, Vec3.dot])
